import Mathlib

/-!
Verification development for the idrive_backup agent (`main.py`).

The embedding models the three core pieces of the program:
  * the include/exclude tree walker of `run_backup` (lines 167-196),
  * the batch uploader `upload_files` (lines 94-150) with its counters,
    per-file size derivation and unit scaling,
  * the outer scheduling loop (lines 240-255).

Paths are modelled as lists of components measured from the filesystem
root, so `[]` is `/`, `["a", "b"]` is `/a/b`.  `pathlib.Path` equality is
component-wise equality and `e in c.parents` holds exactly when `e` is a
strict prefix of `c`, so the exclude test `exclude == include or exclude
in include.parents` is the (non-strict) prefix test.  The filesystem is a
record of the four primitives the walker calls: `Path.resolve`
(`none` models `FileNotFoundError`), `Path.is_file`, `Path.is_dir` and
`Path.iterdir` (`none` models the directory vanishing mid-walk).
-/

namespace IdriveBackup

/-- A filesystem path as its components below the root. -/
abbrev FsPath := List String

/-- The prefix test on paths: `isUnder e c` holds when `c` equals `e` or
lies below `e`, matching `exclude == include or exclude in include.parents`
in `run_backup`. -/
def isUnder : FsPath → FsPath → Bool
  | [], _ => true
  | _ :: _, [] => false
  | x :: e, y :: c => x == y && isUnder e c

/-- The walker's exclude decision for one candidate: the `for exclude in
excludes: ... break / else:` loop of `run_backup` skips the candidate
exactly when some exclude passes the test (first match breaks, the
`else` branch runs when none matched). -/
def excludeDecision (excludes : List FsPath) (c : FsPath) : Bool :=
  excludes.any fun e => isUnder e c

/-- The filesystem primitives used by `run_backup`.  `resolve p = none`
models `Path.resolve` raising `FileNotFoundError`; `children p = none`
models `Path.iterdir` raising `FileNotFoundError` because the directory
was removed mid-walk. -/
structure FS where
  resolve : FsPath → Option FsPath
  isFile : FsPath → Bool
  isDir : FsPath → Bool
  children : FsPath → Option (List FsPath)

/-- State of the walker loop in `run_backup`.  `work` is the `includes`
list with its last element (the next one `pop()` removes) stored first;
`cur` is the current value of the loop variable `include` (`none` before
the first successful `resolve`); `files` is the pending file queue;
`uploads` records each batch passed to `upload_files`; `skips` counts the
"Skipping path ..." log lines; `err` is set when the `except` handler
raises `NameError` because `include` is still unbound, which aborts the
run. -/
structure WalkState where
  work : List FsPath
  cur : Option FsPath
  files : List FsPath
  uploads : List (List FsPath)
  skips : Nat
  err : Bool
  deriving DecidableEq

/-- Initial walker state: `includes` is the configured list, popped from
the end, so the reversed list has the next candidate first. -/
def initState (includes : List FsPath) : WalkState :=
  { work := includes.reverse, cur := none, files := [], uploads := [],
    skips := 0, err := false }

/-- Body of one loop iteration after the candidate `c` is in the loop
variable `include`: the exclude check, then `is_file` (append to `files`,
submitting the batch once it reaches 1000 entries, after which
`upload_files` clears the list), then `is_dir` (extend the work list with
the children; `iterdir` failing is a logged skip), otherwise a logged
skip. -/
def processCandidate (fs : FS) (excludes : List FsPath) (s : WalkState)
    (c : FsPath) : WalkState :=
  if excludeDecision excludes c then
    { s with skips := s.skips + 1 }
  else if fs.isFile c then
    let files := s.files ++ [c]
    if files.length = 1000 then
      { s with files := [], uploads := s.uploads ++ [files] }
    else
      { s with files := files }
  else if fs.isDir c then
    match fs.children c with
    | some cs => { s with work := cs.reverse ++ s.work }
    | none => { s with skips := s.skips + 1 }
  else
    { s with skips := s.skips + 1 }

/-- One iteration of `while len(includes) > 0:`.  Faithful to the source:
when `includes.pop().resolve()` raises, the handler logs a skip and falls
through WITHOUT rebinding `include`, so the previous candidate is
processed again; when no previous candidate exists, formatting the log
message raises `NameError` on the unbound `include`, aborting the run
(`err`). -/
def step (fs : FS) (excludes : List FsPath) (s : WalkState) : WalkState :=
  if s.err then s else
  match s.work with
  | [] => s
  | p :: rest =>
    match fs.resolve p with
    | some c =>
        processCandidate fs excludes { s with work := rest, cur := some c } c
    | none =>
        match s.cur with
        | none => { s with err := true }
        | some c =>
            processCandidate fs excludes
              { s with work := rest, skips := s.skips + 1 } c

/-- Fuel-indexed iteration of the walker loop (`step` is the identity once
the work list is empty or the run aborted). -/
def runWalk (fs : FS) (excludes : List FsPath) : Nat → WalkState → WalkState
  | 0, s => s
  | fuel + 1, s => runWalk fs excludes fuel (step fs excludes s)

/-- The `if len(files) > 0: upload_files(files)` flush after the loop. -/
def finishWalk (s : WalkState) : WalkState :=
  if s.files.length > 0 then
    { s with files := [], uploads := s.uploads ++ [s.files] }
  else
    s

/-- One parsed `<item .../>` record of the upload tool's XML output, with
the attributes `upload_files` reads.  `tottrf_sz` is parsed with `int`. -/
structure Item where
  per : String
  fname : String
  trf_type : String
  rate_trf : String
  tottrf_sz : Int
  deriving DecidableEq

/-- The four run counters incremented by `upload_files`. -/
structure Counters where
  files_considered_for_backup : Nat
  files_backed_up_now : Nat
  files_already_present : Nat
  files_failed_to_backup : Nat
  deriving DecidableEq

/-- The size/unit scaling of `upload_files` (lines 129-142): three
sequential `if size > 1024` divisions stepping the unit B, kB, MB, GB.
Python's float division is modelled over `ℚ`. -/
def scaleSize (sz : ℚ) : ℚ × String :=
  let size := sz
  let unit := "B"
  let su := if size > 1024 then (size / 1024, "kB") else (size, unit)
  let su := if su.1 > 1024 then (su.1 / 1024, "MB") else su
  let su := if su.1 > 1024 then (su.1 / 1024, "GB") else su
  su

/-- The scaling as the spec phrases it: repeatedly divide by 1024 while
the current value exceeds 1024, stepping through a unit list and stopping
at the last unit. -/
def scaleLoop : ℚ → List String → ℚ × String
  | sz, [] => (sz, "B")
  | sz, [u] => (sz, u)
  | sz, u :: u' :: us =>
      if sz > 1024 then scaleLoop (sz / 1024) (u' :: us) else (sz, u)

/-- State threaded through the record loop of `upload_files`: the
counters, the running `last_total_transfer_size`, the size log (raw
derived `transfer_size` plus the scaled value and unit written to the log
for FULL/INCREMENTAL records), and every derived `transfer_size` in
order. -/
structure UploadState where
  counters : Counters
  last_total_transfer_size : Int
  sizeLog : List (Int × ℚ × String)
  derived : List Int
  deriving DecidableEq

/-- Processing of one record in `upload_files`: records below `100%`
completion are skipped entirely; otherwise the per-file size is derived
from the running cumulative total, `files_considered_for_backup` is
incremented, and the transfer type selects exactly one of the other three
counters. -/
def processItem (st : UploadState) (item : Item) : UploadState :=
  if item.per ≠ "100%" then st else
  let transfer_size := item.tottrf_sz - st.last_total_transfer_size
  let c := { st.counters with
    files_considered_for_backup :=
      st.counters.files_considered_for_backup + 1 }
  let st := { st with
    last_total_transfer_size := item.tottrf_sz,
    derived := st.derived ++ [transfer_size] }
  if item.trf_type == "FULL" || item.trf_type == "INCREMENTAL" then
    { st with
      counters := { c with
        files_backed_up_now := c.files_backed_up_now + 1 },
      sizeLog := st.sizeLog ++ [(transfer_size, scaleSize transfer_size)] }
  else if item.trf_type == "FILE IN SYNC" then
    { st with
      counters := { c with
        files_already_present := c.files_already_present + 1 } }
  else
    { st with
      counters := { c with
        files_failed_to_backup := c.files_failed_to_backup + 1 } }

/-- The record loop of `upload_files` over a batch response. -/
def processItems (st : UploadState) : List Item → UploadState
  | [] => st
  | item :: rest => processItems (processItem st item) rest

/-- Processing one whole batch response: `last_total_transfer_size` is a
local of `upload_files` initialised to 0, so the baseline resets at the
start of every batch; the counters carry over from previous batches. -/
def processBatch (c : Counters) (items : List Item) : UploadState :=
  processItems
    { counters := c, last_total_transfer_size := 0, sizeLog := [],
      derived := [] } items

/-- Number of `100%`-complete records in a batch response. -/
def count100 (items : List Item) : Nat :=
  (items.filter fun item => item.per == "100%").length

/-- Cumulative totals of the `100%`-complete records of a batch, in
order. -/
def totals (items : List Item) : List Int :=
  (items.filter fun item => item.per == "100%").map fun item =>
    item.tottrf_sz

/-- Consecutive differences of a list of cumulative totals against a
running baseline. -/
def diffsFrom : List Int → Int → List Int
  | [], _ => []
  | t :: ts, last => (t - last) :: diffsFrom ts t

/-- The `upload_files` routine seen from the pending queue: the queue is
written to the list file and cleared (`files.clear()`) BEFORE the
external tool is invoked, so whatever the invocation does — `call`
returning `none` models `subprocess.check_output` raising — the queue
ends up empty.  The first component is the queue after the routine. -/
def uploadFilesRun (call : List FsPath → Option (List Item)) (c : Counters)
    (files : List FsPath) : List FsPath × Option UploadState :=
  let cleared : List FsPath := []
  match call files with
  | none => (cleared, none)
  | some items => (cleared, some (processBatch c items))

/-- Outcome of one iteration of the scheduling loop: whether a backup run
starts, what (if anything) is written to the `lastrun` file, and whether
the iteration sleeps and retries. -/
structure SchedOutcome where
  runsBackup : Bool
  wrote : Option ℚ
  sleeps : Bool
  deriving DecidableEq

/-- One iteration of the `while True:` scheduling loop (lines 240-255):
if the `lastrun` file exists (`some t`) and `lastrun + interval > now`,
sleep and retry without touching the file; otherwise write `now` to the
file and start a run.  Timestamps are `float` epoch seconds, modelled
over `ℚ`. -/
def schedIter (lastrun : Option ℚ) (interval now : ℚ) : SchedOutcome :=
  match lastrun with
  | some t =>
      if t + interval > now then
        { runsBackup := false, wrote := none, sleeps := true }
      else
        { runsBackup := true, wrote := some now, sleeps := false }
  | none => { runsBackup := true, wrote := some now, sleeps := false }

/-- A concrete filesystem for evaluations: `/a` is a directory holding
the regular files `/a/f1.txt` and `/a/f2.txt`, and `/lnk` is a symbolic
link whose canonical target is `/a`; `/b` is a broken symbolic link. -/
def exFS : FS where
  resolve p :=
    if p = ([] : FsPath) then some [] else
    if p = ["a"] then some ["a"] else
    if p = ["a", "f1.txt"] then some ["a", "f1.txt"] else
    if p = ["a", "f2.txt"] then some ["a", "f2.txt"] else
    if p = ["lnk"] then some ["a"] else
    none
  isFile p := p = ["a", "f1.txt"] || p = ["a", "f2.txt"]
  isDir p := p = ["a"] || p = ([] : FsPath)
  children p :=
    if p = ["a"] then some [["a", "f1.txt"], ["a", "f2.txt"]] else
    if p = ([] : FsPath) then some [["a"], ["lnk"]] else
    none

/-- A tiny filesystem exhibiting the missing-`continue` fall-through:
`/f` is a regular file and `/b` is a broken symbolic link. -/
def bugFS : FS where
  resolve p :=
    if p = (["f"] : FsPath) then some ["f"] else none
  isFile p := p = ["f"]
  isDir _ := false
  children _ := none

/-- A concrete batch response used in evaluations (the spec's scenario):
two records at 100% with cumulative totals 1000 then 1500, a FULL
transfer followed by a FILE IN SYNC record. -/
def exItems : List Item :=
  [ { per := "100%", fname := "f1.txt", trf_type := "FULL",
      rate_trf := "1 MB/s", tottrf_sz := 1000 },
    { per := "100%", fname := "f2.txt", trf_type := "FILE IN SYNC",
      rate_trf := "", tottrf_sz := 1500 } ]

/-- A batch response whose cumulative totals decrease: the second derived
per-file size is negative. -/
def badItems : List Item :=
  [ { per := "100%", fname := "g1", trf_type := "FULL",
      rate_trf := "", tottrf_sz := 5 },
    { per := "100%", fname := "g2", trf_type := "FULL",
      rate_trf := "", tottrf_sz := 3 } ]

/-- Zeroed counters at the start of a run. -/
def zeroCounters : Counters :=
  { files_considered_for_backup := 0, files_backed_up_now := 0,
    files_already_present := 0, files_failed_to_backup := 0 }

/-- Sum of the three outcome counters (everything but
`files_considered_for_backup`). -/
def otherSum (c : Counters) : Nat :=
  c.files_backed_up_now + c.files_already_present + c.files_failed_to_backup

/-- Invariant for C1: nothing in the pending queue or in any submitted
batch matches an exclude. -/
def NoExcluded (excludes : List FsPath) (s : WalkState) : Prop :=
  (∀ p ∈ s.files, excludeDecision excludes p = false) ∧
  ∀ b ∈ s.uploads, ∀ p ∈ b, excludeDecision excludes p = false

/-- Invariant for C2: the pending queue stays below the batch threshold
and every batch submitted during the walk has exactly 1000 entries. -/
def BatchesOk (s : WalkState) : Prop :=
  s.files.length < 1000 ∧ ∀ b ∈ s.uploads, b.length = 1000

/-- Invariant for C9: the loop variable `include`, when bound, holds an
output of `Path.resolve`, i.e. a canonical path. -/
def CurResolved (fs : FS) (s : WalkState) : Prop :=
  ∀ c, s.cur = some c → fs.resolve c = some c

/-! Section: Lemmas about the batch uploader -/

theorem processItem_skip {st : UploadState} {item : Item}
    (h : item.per ≠ "100%") : processItem st item = st := by
  unfold processItem
  simp [h]

theorem processItem_counts (st : UploadState) (item : Item) :
    (processItem st item).counters.files_considered_for_backup =
      st.counters.files_considered_for_backup +
        (if item.per == "100%" then 1 else 0) ∧
    otherSum (processItem st item).counters =
      otherSum st.counters + (if item.per == "100%" then 1 else 0) := by
  by_cases hper : item.per = "100%"
  · unfold processItem
    simp only [hper, ne_eq, not_true_eq_false, if_false, beq_self_eq_true,
      if_true]
    split_ifs <;> simp [otherSum] <;> omega
  · rw [processItem_skip hper]
    simp [hper]

theorem count100_cons (item : Item) (rest : List Item) :
    count100 (item :: rest) =
      (if item.per == "100%" then 1 else 0) + count100 rest := by
  unfold count100
  by_cases hper : item.per = "100%"
  · simp [hper, List.filter_cons]
    omega
  · simp [hper, List.filter_cons]

theorem processItems_counts (items : List Item) (st : UploadState) :
    (processItems st items).counters.files_considered_for_backup =
      st.counters.files_considered_for_backup + count100 items ∧
    otherSum (processItems st items).counters =
      otherSum st.counters + count100 items := by
  induction items generalizing st with
  | nil => simp [processItems, count100]
  | cons item rest ih =>
    have hi := processItem_counts st item
    have hr := ih (processItem st item)
    rw [processItems, count100_cons]
    exact ⟨by rw [hr.1, hi.1]; omega, by rw [hr.2, hi.2]; omega⟩

theorem totals_cons (item : Item) (rest : List Item) :
    totals (item :: rest) =
      if item.per == "100%" then item.tottrf_sz :: totals rest
      else totals rest := by
  unfold totals
  by_cases hper : item.per = "100%" <;> simp [hper, List.filter_cons]

theorem processItem_derived {st : UploadState} {item : Item}
    (hper : item.per = "100%") :
    (processItem st item).derived =
      st.derived ++ [item.tottrf_sz - st.last_total_transfer_size] ∧
    (processItem st item).last_total_transfer_size = item.tottrf_sz := by
  unfold processItem
  simp only [hper, ne_eq, not_true_eq_false, if_false]
  split_ifs <;> simp

theorem processItems_derived (items : List Item) (st : UploadState) :
    (processItems st items).derived =
      st.derived ++ diffsFrom (totals items) st.last_total_transfer_size := by
  induction items generalizing st with
  | nil => simp [processItems, totals, diffsFrom]
  | cons item rest ih =>
    rw [processItems, totals_cons]
    by_cases hper : item.per = "100%"
    · have hd := @processItem_derived st item hper
      rw [ih (processItem st item), hd.1, hd.2]
      simp [hper, diffsFrom]
    · rw [processItem_skip hper]
      simp [hper, ih st]

theorem diffsFrom_nonneg {l : List Int} {last : Int}
    (h : List.Chain (· ≤ ·) last l) : ∀ d ∈ diffsFrom l last, 0 ≤ d := by
  induction l generalizing last with
  | nil => simp [diffsFrom]
  | cons t ts ih =>
    rw [List.chain_cons] at h
    intro d hd
    rcases List.mem_cons.mp hd with hd | hd
    · subst hd
      omega
    · exact ih h.2 d hd

theorem scaleSize_eq_scaleLoop (sz : ℚ) :
    scaleSize sz = scaleLoop sz ["B", "kB", "MB", "GB"] := by
  by_cases h1 : sz > 1024
  · by_cases h2 : sz / 1024 > 1024
    · by_cases h3 : sz / 1024 / 1024 > 1024
      · simp [scaleSize, scaleLoop, h1, h2, h3]
      · simp [scaleSize, scaleLoop, h1, h2, h3]
    · simp [scaleSize, scaleLoop, h1, h2]
  · simp [scaleSize, scaleLoop, h1]

theorem processItem_sizeLog (st : UploadState) (item : Item) :
    (processItem st item).sizeLog = st.sizeLog ∨
    ∃ raw : Int,
      (processItem st item).sizeLog =
        st.sizeLog ++ [(raw, scaleSize (raw : ℚ))] := by
  unfold processItem
  split_ifs with h1 h2 h3
  · exact Or.inl rfl
  · exact Or.inr ⟨item.tottrf_sz - st.last_total_transfer_size, rfl⟩
  · exact Or.inl rfl
  · exact Or.inl rfl

theorem processItems_sizeLog (items : List Item) (st : UploadState)
    {entry : Int × ℚ × String}
    (h : entry ∈ (processItems st items).sizeLog) :
    entry ∈ st.sizeLog ∨ ∃ raw : Int, entry = (raw, scaleSize (raw : ℚ)) := by
  induction items generalizing st with
  | nil => exact Or.inl h
  | cons item rest ih =>
    rw [processItems] at h
    rcases ih (processItem st item) h with h' | h'
    · rcases processItem_sizeLog st item with hl | ⟨raw, hl⟩
      · rw [hl] at h'
        exact Or.inl h'
      · rw [hl] at h'
        rcases List.mem_append.mp h' with h'' | h''
        · exact Or.inl h''
        · exact Or.inr ⟨raw, by simpa using h''⟩
    · exact Or.inr h'

/-! Section: Claims about the batch uploader and the scheduler -/

/-- C3: processing one batch response increments
`files_considered_for_backup` by exactly the number of records whose
completion attribute is `100%`, and the combined increase of
`files_backed_up_now`, `files_already_present` and
`files_failed_to_backup` over that batch equals that same number. -/
theorem c3_counter_conservation (c : Counters) (items : List Item) :
    (processBatch c items).counters.files_considered_for_backup =
      c.files_considered_for_backup + count100 items ∧
    (processBatch c items).counters.files_backed_up_now +
        (processBatch c items).counters.files_already_present +
        (processBatch c items).counters.files_failed_to_backup =
      c.files_backed_up_now + c.files_already_present +
        c.files_failed_to_backup + count100 items := by
  have h := processItems_counts items
    { counters := c, last_total_transfer_size := 0, sizeLog := [],
      derived := [] }
  unfold otherSum at h
  exact ⟨h.1, h.2⟩

/-- C4 counterexample: the claim asserts every derived per-file transfer
size is non-negative, but on a batch whose cumulative totals decrease
(here 5 followed by 3) the second derived size is `-2`. -/
theorem c4_counterexample :
    ¬ ∀ d ∈ (processBatch zeroCounters badItems).derived, 0 ≤ d := by
  decide

/-- C4 (amended): each `100%`-complete record's derived per-file size
equals its cumulative total minus the previous processed record's
cumulative total within the same batch, with the baseline reset to zero
at the start of every batch; the derived sizes are all non-negative
whenever the cumulative totals of the batch's `100%` records ascend from
zero — the code does not guarantee non-negativity otherwise. -/
theorem c4_derived_sizes (c : Counters) (items : List Item) :
    (processBatch c items).derived = diffsFrom (totals items) 0 ∧
    (List.Chain (· ≤ ·) 0 (totals items) →
      ∀ d ∈ (processBatch c items).derived, 0 ≤ d) := by
  have h : (processBatch c items).derived = diffsFrom (totals items) 0 := by
    have h' := processItems_derived items
      { counters := c, last_total_transfer_size := 0, sizeLog := [],
        derived := [] }
    simpa [processBatch] using h'
  refine ⟨h, fun hmono d hd => ?_⟩
  rw [h] at hd
  exact diffsFrom_nonneg hmono d hd

/-- C4 witness: the amended statement evaluated on a concrete ascending
batch (totals 1500 then 2000, derived sizes 1500 and 500). -/
theorem c4_witness :
    (processBatch zeroCounters exItems).derived =
        diffsFrom (totals exItems) 0 ∧
      (List.Chain (· ≤ ·) 0 (totals exItems) →
        ∀ d ∈ (processBatch zeroCounters exItems).derived, 0 ≤ d) :=
  c4_derived_sizes zeroCounters exItems

/-- C6: every size logged for a FULL or INCREMENTAL record carries the
value and unit produced by repeatedly dividing the raw derived size by
1024 while it exceeds 1024, stepping the unit B, kB, MB, GB and stopping
at GB. -/
theorem c6_size_unit_scaling (c : Counters) (items : List Item)
    (raw : Int) (v : ℚ) (u : String)
    (hmem : (raw, v, u) ∈ (processBatch c items).sizeLog) (_hraw : 0 ≤ raw) :
    (v, u) = scaleLoop (raw : ℚ) ["B", "kB", "MB", "GB"] := by
  rcases processItems_sizeLog items _ hmem with h | ⟨raw', h⟩
  · simp at h
  · obtain ⟨rfl, hvu⟩ : raw = raw' ∧ (v, u) = scaleSize (raw' : ℚ) :=
      ⟨congrArg Prod.fst h, congrArg Prod.snd h⟩
    rw [hvu, scaleSize_eq_scaleLoop]

/-- C6 witness: the FULL record of the concrete batch `exItems` derives
size 1000, which the log records as 1000 B unscaled. -/
theorem c6_witness :
    ((1000 : ℚ), "B") = scaleLoop ((1000 : Int) : ℚ) ["B", "kB", "MB", "GB"] :=
  c6_size_unit_scaling zeroCounters exItems 1000 (1000 : ℚ) "B"
    (by decide) (by decide)

/-- C7: when the `lastrun` file exists with timestamp `t`, a run starts
(and the file is rewritten with `now`) whenever `t < now - interval`, and
when `t > now - interval` the iteration sleeps and retries without
starting a run or rewriting the file. -/
theorem c7_scheduler_gate (t interval now : ℚ) :
    (t < now - interval →
      schedIter (some t) interval now =
        { runsBackup := true, wrote := some now, sleeps := false }) ∧
    (t > now - interval →
      schedIter (some t) interval now =
        { runsBackup := false, wrote := none, sleeps := true }) := by
  constructor
  · intro h
    have : ¬ t + interval > now := by linarith
    simp [schedIter, this]
  · intro h
    have : t + interval > now := by linarith
    simp [schedIter, this]

/-- C7 witness: with interval 10, a stored timestamp of 1 at time 20
starts a run and rewrites the file, while a stored timestamp of 15
sleeps without touching it. -/
theorem c7_witness :
    schedIter (some 1) 10 20 =
        { runsBackup := true, wrote := some 20, sleeps := false } ∧
      schedIter (some 15) 10 20 =
        { runsBackup := false, wrote := none, sleeps := true } :=
  ⟨(c7_scheduler_gate 1 10 20).1 (by norm_num),
    (c7_scheduler_gate 15 10 20).2 (by norm_num)⟩

/-- C10: `upload_files` clears the pending queue (`files.clear()`)
before invoking the external tool, so the queue is empty afterwards for
every possible outcome of the invocation — including the call raising
(`call` returning `none`) — and the batch's files cannot be resubmitted
later in the run. -/
theorem c10_queue_cleared_before_call
    (call : List FsPath → Option (List Item)) (c : Counters)
    (files : List FsPath) : (uploadFilesRun call c files).1 = [] := by
  unfold uploadFilesRun
  cases call files <;> rfl

/-! Section: Lemmas about the tree walker -/

theorem noExcluded_processCandidate {fs : FS} {excludes : List FsPath}
    {s : WalkState} {c : FsPath} (h : NoExcluded excludes s) :
    NoExcluded excludes (processCandidate fs excludes s c) := by
  obtain ⟨hf, hu⟩ := h
  unfold processCandidate
  by_cases hd : excludeDecision excludes c = true
  · simp only [hd, if_true]
    exact ⟨hf, hu⟩
  · have hd' : excludeDecision excludes c = false := by
      simpa using hd
    simp only [hd', Bool.false_eq_true, if_false]
    by_cases hfile : fs.isFile c = true
    · simp only [hfile, if_true]
      by_cases hlen : (s.files ++ [c]).length = 1000
      · simp only [hlen, if_true]
        refine ⟨by simp, fun b hb p hp => ?_⟩
        rcases List.mem_append.mp hb with hb | hb
        · exact hu b hb p hp
        · have hbe : b = s.files ++ [c] := by simpa using hb
          subst hbe
          rcases List.mem_append.mp hp with hp | hp
          · exact hf p hp
          · have hpc : p = c := by simpa using hp
            subst hpc
            exact hd'
      · simp only [hlen, if_false]
        refine ⟨fun p hp => ?_, hu⟩
        rcases List.mem_append.mp hp with hp | hp
        · exact hf p hp
        · have hpc : p = c := by simpa using hp
          subst hpc
          exact hd'
    · simp only [hfile, Bool.false_eq_true, if_false]
      by_cases hdir : fs.isDir c = true
      · simp only [hdir, if_true]
        cases fs.children c <;> exact ⟨hf, hu⟩
      · simp only [hdir, Bool.false_eq_true, if_false]
        exact ⟨hf, hu⟩

theorem noExcluded_step {fs : FS} {excludes : List FsPath} {s : WalkState}
    (h : NoExcluded excludes s) : NoExcluded excludes (step fs excludes s) := by
  unfold step
  split
  · exact h
  · split
    · exact h
    · split
      · exact noExcluded_processCandidate h
      · split
        · exact h
        · exact noExcluded_processCandidate h

theorem noExcluded_runWalk {fs : FS} {excludes : List FsPath}
    (fuel : Nat) {s : WalkState} (h : NoExcluded excludes s) :
    NoExcluded excludes (runWalk fs excludes fuel s) := by
  induction fuel generalizing s with
  | zero => exact h
  | succ n ih => exact ih (noExcluded_step h)

theorem noExcluded_finishWalk {excludes : List FsPath} {s : WalkState}
    (h : NoExcluded excludes s) : NoExcluded excludes (finishWalk s) := by
  obtain ⟨hf, hu⟩ := h
  unfold finishWalk
  by_cases hl : s.files.length > 0
  · simp only [hl, if_true]
    refine ⟨by simp, fun b hb p hp => ?_⟩
    rcases List.mem_append.mp hb with hb | hb
    · exact hu b hb p hp
    · have hbe : b = s.files := by simpa using hb
      subst hbe
      exact hf p hp
  · simp only [hl, if_false]
    exact ⟨hf, hu⟩

theorem noExcluded_initState (excludes includes : List FsPath) :
    NoExcluded excludes (initState includes) := by
  constructor
  · intro p hp
    simp [initState] at hp
  · intro b hb
    simp [initState] at hb

theorem batchesOk_processCandidate {fs : FS} {excludes : List FsPath}
    {s : WalkState} {c : FsPath} (h : BatchesOk s) :
    BatchesOk (processCandidate fs excludes s c) := by
  obtain ⟨hf, hu⟩ := h
  unfold processCandidate
  by_cases hd : excludeDecision excludes c = true
  · simp only [hd, if_true]
    exact ⟨hf, hu⟩
  · have hd' : excludeDecision excludes c = false := by
      simpa using hd
    simp only [hd', Bool.false_eq_true, if_false]
    by_cases hfile : fs.isFile c = true
    · simp only [hfile, if_true]
      by_cases hlen : (s.files ++ [c]).length = 1000
      · simp only [hlen, if_true]
        refine ⟨by simp, fun b hb => ?_⟩
        rcases List.mem_append.mp hb with hb | hb
        · exact hu b hb
        · have hbe : b = s.files ++ [c] := by simpa using hb
          subst hbe
          exact hlen
      · simp only [hlen, if_false]
        refine ⟨?_, hu⟩
        show (s.files ++ [c]).length < 1000
        have hlen2 : (s.files ++ [c]).length = s.files.length + 1 := by simp
        omega
    · simp only [hfile, Bool.false_eq_true, if_false]
      by_cases hdir : fs.isDir c = true
      · simp only [hdir, if_true]
        cases fs.children c <;> exact ⟨hf, hu⟩
      · simp only [hdir, Bool.false_eq_true, if_false]
        exact ⟨hf, hu⟩

theorem batchesOk_step {fs : FS} {excludes : List FsPath} {s : WalkState}
    (h : BatchesOk s) : BatchesOk (step fs excludes s) := by
  unfold step
  split
  · exact h
  · split
    · exact h
    · split
      · exact batchesOk_processCandidate h
      · split
        · exact h
        · exact batchesOk_processCandidate h

theorem batchesOk_runWalk {fs : FS} {excludes : List FsPath}
    (fuel : Nat) {s : WalkState} (h : BatchesOk s) :
    BatchesOk (runWalk fs excludes fuel s) := by
  induction fuel generalizing s with
  | zero => exact h
  | succ n ih => exact ih (batchesOk_step h)

theorem batchesOk_initState (includes : List FsPath) :
    BatchesOk (initState includes) := by
  constructor
  · simp [initState]
  · intro b hb
    simp [initState] at hb

theorem finishWalk_uploads_mem {s : WalkState} {b : List FsPath}
    (hb : b ∈ (finishWalk s).uploads) :
    b ∈ s.uploads ∨ (b = s.files ∧ s.files.length > 0) := by
  unfold finishWalk at hb
  by_cases hl : s.files.length > 0
  · simp only [hl, if_true] at hb
    rcases List.mem_append.mp hb with hb | hb
    · exact Or.inl hb
    · exact Or.inr ⟨by simpa using hb, hl⟩
  · simp only [hl, if_false] at hb
    exact Or.inl hb

/-! Section: Claims about the tree walker -/

/-- C1: every file path the walker puts into the pending file queue — and
hence every path inside any submitted batch — is neither equal to nor a
descendant of any configured exclude path. -/
theorem c1_emitted_not_excluded (fs : FS)
    (excludes includes : List FsPath) (fuel : Nat) (p e : FsPath)
    (hp : p ∈ (runWalk fs excludes fuel (initState includes)).files ∨
      ∃ b ∈ (finishWalk
          (runWalk fs excludes fuel (initState includes))).uploads, p ∈ b)
    (he : e ∈ excludes) : isUnder e p = false := by
  have hinv := @noExcluded_runWalk fs excludes fuel (initState includes)
    (noExcluded_initState excludes includes)
  have hdec : excludeDecision excludes p = false := by
    rcases hp with hp | ⟨b, hb, hp⟩
    · exact hinv.1 p hp
    · exact (noExcluded_finishWalk hinv).2 b hb p hp
  have hall := List.any_eq_false.mp hdec
  exact Bool.eq_false_iff.mpr (hall e he)

/-- C1 witness: with include `/a` and exclude `/a/f2.txt` on the concrete
filesystem, `/a/f1.txt` is emitted and does not lie under the exclude. -/
theorem c1_witness :
    (["a", "f1.txt"] ∈
        (runWalk exFS [["a", "f2.txt"]] 20
          (initState [["a"]])).files ∨
      ∃ b ∈ (finishWalk (runWalk exFS [["a", "f2.txt"]] 20
          (initState [["a"]]))).uploads, ["a", "f1.txt"] ∈ b) ∧
    isUnder ["a", "f2.txt"] ["a", "f1.txt"] = false :=
  ⟨Or.inl (by decide),
    c1_emitted_not_excluded exFS [["a", "f2.txt"]] [["a"]] 20
      ["a", "f1.txt"] ["a", "f2.txt"] (Or.inl (by decide)) (by decide)⟩

/-- C2: every batch submitted to the upload routine is non-empty and
holds at most 1000 paths; batches submitted during the walk hold exactly
1000 (the queue itself always stays below 1000 afterwards), and when the
walk ends with an empty remainder the final flush submits nothing. -/
theorem c2_batch_sizes (fs : FS) (excludes includes : List FsPath)
    (fuel : Nat) (b : List FsPath)
    (hb : b ∈ (finishWalk
        (runWalk fs excludes fuel (initState includes))).uploads) :
    0 < b.length ∧ b.length ≤ 1000 ∧
      (b ∈ (runWalk fs excludes fuel (initState includes)).uploads →
        b.length = 1000) ∧
      (runWalk fs excludes fuel (initState includes)).files.length < 1000 ∧
      ((runWalk fs excludes fuel (initState includes)).files = [] →
        (finishWalk
            (runWalk fs excludes fuel (initState includes))).uploads =
          (runWalk fs excludes fuel (initState includes)).uploads) := by
  have hinv := @batchesOk_runWalk fs excludes fuel (initState includes)
    (batchesOk_initState includes)
  refine ⟨?_, ?_, fun hb' => hinv.2 b hb', hinv.1, fun hnil => ?_⟩
  · rcases finishWalk_uploads_mem hb with hb' | ⟨rfl, hpos⟩
    · rw [hinv.2 b hb']
      omega
    · exact hpos
  · rcases finishWalk_uploads_mem hb with hb' | ⟨rfl, hpos⟩
    · rw [hinv.2 b hb']
    · have := hinv.1
      omega
  · unfold finishWalk
    simp [hnil]

/-- C2 witness: the walk of `/a` under exclude `/a/f2.txt` ends with the
single final batch `[/a/f1.txt]`. -/
theorem c2_witness :
    0 < ([["a", "f1.txt"]] : List FsPath).length ∧
      ([["a", "f1.txt"]] : List FsPath).length ≤ 1000 ∧
      ([["a", "f1.txt"]] ∈
          (runWalk exFS [["a", "f2.txt"]] 20 (initState [["a"]])).uploads →
        ([["a", "f1.txt"]] : List FsPath).length = 1000) ∧
      (runWalk exFS [["a", "f2.txt"]] 20
          (initState [["a"]])).files.length < 1000 ∧
      ((runWalk exFS [["a", "f2.txt"]] 20 (initState [["a"]])).files = [] →
        (finishWalk (runWalk exFS [["a", "f2.txt"]] 20
            (initState [["a"]]))).uploads =
          (runWalk exFS [["a", "f2.txt"]] 20 (initState [["a"]])).uploads) :=
  c2_batch_sizes exFS [["a", "f2.txt"]] [["a"]] 20 [["a", "f1.txt"]]
    (by decide)

/-- C5: the claim says a candidate whose resolution fails is skipped and
the walk continues with the next work-list entry, never fatally.  The
code's `except` handler logs a skip but lacks a `continue`, so control
falls through to the loop body with the PREVIOUS candidate still bound:
with work list `/b` (broken link), `/f` (regular file), `/f` is emitted
twice; and when the very first candidate's resolution fails, formatting
the skip message reads the unbound loop variable and the run aborts. -/
theorem c5_broken_link_fallthrough :
    (runWalk bugFS [] 10 (initState [["b"], ["f"]])).files =
        [["f"], ["f"]] ∧
      (runWalk bugFS [] 10 (initState [["b"]])).err = true := by
  decide

/-- C8: the walker's skip decision for a candidate is invariant under any
permutation of the exclude list, because it holds exactly when some
exclude equals the candidate or is an ancestor of it. -/
theorem c8_exclude_order_irrelevant (l₁ l₂ : List FsPath) (c : FsPath)
    (h : l₁.Perm l₂) :
    excludeDecision l₁ c = excludeDecision l₂ c ∧
      (excludeDecision l₁ c = true ↔ ∃ e ∈ l₁, isUnder e c = true) := by
  constructor
  · have hiff : excludeDecision l₁ c = true ↔ excludeDecision l₂ c = true := by
      simp only [excludeDecision, List.any_eq_true]
      constructor
      · rintro ⟨e, he, hu⟩
        exact ⟨e, h.mem_iff.mp he, hu⟩
      · rintro ⟨e, he, hu⟩
        exact ⟨e, h.mem_iff.mpr he, hu⟩
    cases h1 : excludeDecision l₁ c <;> cases h2 : excludeDecision l₂ c
    · rfl
    · exact absurd (hiff.mpr h2) (by simp [h1])
    · exact absurd (hiff.mp h1) (by simp [h2])
    · rfl
  · simp [excludeDecision, List.any_eq_true]

/-- C8 witness: swapping the two excludes `/x` and `/a` leaves the
decision for `/a/f1.txt` unchanged, and the decision holds because `/a`
is an ancestor. -/
theorem c8_witness :
    excludeDecision [["x"], ["a"]] ["a", "f1.txt"] =
        excludeDecision [["a"], ["x"]] ["a", "f1.txt"] ∧
      (excludeDecision [["x"], ["a"]] ["a", "f1.txt"] = true ↔
        ∃ e ∈ [["x"], ["a"]], isUnder e ["a", "f1.txt"] = true) :=
  c8_exclude_order_irrelevant [["x"], ["a"]] [["a"], ["x"]]
    ["a", "f1.txt"] (by decide)

/-! Section: Step equations and canonicality, towards C9 -/

theorem step_eq_err {fs : FS} {excludes : List FsPath} {s : WalkState}
    (h : s.err = true) : step fs excludes s = s := by
  unfold step
  simp [h]

theorem step_eq_done {fs : FS} {excludes : List FsPath} {s : WalkState}
    (h : s.err = false) (hw : s.work = []) : step fs excludes s = s := by
  unfold step
  simp [h, hw]

theorem step_eq_resolve {fs : FS} {excludes : List FsPath} {s : WalkState}
    {p c : FsPath} {rest : List FsPath} (h : s.err = false)
    (hw : s.work = p :: rest) (hres : fs.resolve p = some c) :
    step fs excludes s =
      processCandidate fs excludes { s with work := rest, cur := some c } c := by
  unfold step
  simp [h, hw, hres]

theorem step_eq_stale {fs : FS} {excludes : List FsPath} {s : WalkState}
    {p c : FsPath} {rest : List FsPath} (h : s.err = false)
    (hw : s.work = p :: rest) (hres : fs.resolve p = none)
    (hcur : s.cur = some c) :
    step fs excludes s =
      processCandidate fs excludes
        { s with work := rest, skips := s.skips + 1 } c := by
  unfold step
  simp [h, hw, hres, hcur]

theorem step_eq_abort {fs : FS} {excludes : List FsPath} {s : WalkState}
    {p : FsPath} {rest : List FsPath} (h : s.err = false)
    (hw : s.work = p :: rest) (hres : fs.resolve p = none)
    (hcur : s.cur = none) : step fs excludes s = { s with err := true } := by
  unfold step
  simp [h, hw, hres, hcur]

theorem processCandidate_cur (fs : FS) (excludes : List FsPath)
    (s : WalkState) (c : FsPath) :
    (processCandidate fs excludes s c).cur = s.cur := by
  unfold processCandidate
  by_cases h1 : excludeDecision excludes c = true
  · simp [h1]
  · simp only [h1, Bool.false_eq_true, if_false]
    by_cases h2 : fs.isFile c = true
    · simp only [h2, if_true]
      split <;> rfl
    · simp only [h2, Bool.false_eq_true, if_false]
      by_cases h4 : fs.isDir c = true
      · simp only [h4, if_true]
        rcases hch : fs.children c with _ | cs <;> simp [hch]
      · simp [h4]

theorem curResolved_step {fs : FS} {excludes : List FsPath} {s : WalkState}
    (Hidem : ∀ p q, fs.resolve p = some q → fs.resolve q = some q)
    (h : CurResolved fs s) : CurResolved fs (step fs excludes s) := by
  by_cases herr : s.err = true
  · rw [step_eq_err herr]
    exact h
  · have herr' : s.err = false := by simpa using herr
    rcases hw : s.work with _ | ⟨p, rest⟩
    · rw [step_eq_done herr' hw]
      exact h
    · rcases hres : fs.resolve p with _ | c
      · rcases hcur : s.cur with _ | c
        · rw [step_eq_abort herr' hw hres hcur]
          intro c' hc'
          exact h c' hc'
        · rw [step_eq_stale herr' hw hres hcur]
          intro c' hc'
          rw [processCandidate_cur] at hc'
          exact h c' hc'
      · rw [step_eq_resolve herr' hw hres]
        intro c' hc'
        rw [processCandidate_cur] at hc'
        have hcc : some c = some c' := hc'
        obtain rfl := Option.some.inj hcc
        exact Hidem p c hres

theorem excludeDecision_erase_noncanonical {fs : FS} {e : FsPath}
    (Hanc : ∀ p q, fs.resolve q = some q → isUnder p q = true →
      fs.resolve p = some p)
    (he : fs.resolve e ≠ some e) (ex₁ ex₂ : List FsPath) {c : FsPath}
    (hc : fs.resolve c = some c) :
    excludeDecision (ex₁ ++ e :: ex₂) c = excludeDecision (ex₁ ++ ex₂) c := by
  have hf : isUnder e c = false := by
    cases hec : isUnder e c
    · rfl
    · exact absurd (Hanc e c hc hec) he
  simp [excludeDecision, List.any_append, List.any_cons, hf]

theorem processCandidate_erase_noncanonical {fs : FS} {e : FsPath}
    (Hanc : ∀ p q, fs.resolve q = some q → isUnder p q = true →
      fs.resolve p = some p)
    (he : fs.resolve e ≠ some e) (ex₁ ex₂ : List FsPath) {s : WalkState}
    {c : FsPath} (hc : fs.resolve c = some c) :
    processCandidate fs (ex₁ ++ e :: ex₂) s c =
      processCandidate fs (ex₁ ++ ex₂) s c := by
  unfold processCandidate
  rw [excludeDecision_erase_noncanonical Hanc he ex₁ ex₂ hc]

theorem step_erase_noncanonical {fs : FS} {e : FsPath}
    (Hidem : ∀ p q, fs.resolve p = some q → fs.resolve q = some q)
    (Hanc : ∀ p q, fs.resolve q = some q → isUnder p q = true →
      fs.resolve p = some p)
    (he : fs.resolve e ≠ some e) (ex₁ ex₂ : List FsPath) {s : WalkState}
    (h : CurResolved fs s) :
    step fs (ex₁ ++ e :: ex₂) s = step fs (ex₁ ++ ex₂) s := by
  by_cases herr : s.err = true
  · rw [step_eq_err herr, step_eq_err herr]
  · have herr' : s.err = false := by simpa using herr
    rcases hw : s.work with _ | ⟨p, rest⟩
    · rw [step_eq_done herr' hw, step_eq_done herr' hw]
    · rcases hres : fs.resolve p with _ | c
      · rcases hcur : s.cur with _ | c
        · rw [step_eq_abort herr' hw hres hcur,
            step_eq_abort herr' hw hres hcur]
        · rw [step_eq_stale herr' hw hres hcur,
            step_eq_stale herr' hw hres hcur]
          exact processCandidate_erase_noncanonical Hanc he ex₁ ex₂
            (h c hcur)
      · rw [step_eq_resolve herr' hw hres, step_eq_resolve herr' hw hres]
        exact processCandidate_erase_noncanonical Hanc he ex₁ ex₂
          (Hidem p c hres)

theorem runWalk_erase_noncanonical {fs : FS} {e : FsPath}
    (Hidem : ∀ p q, fs.resolve p = some q → fs.resolve q = some q)
    (Hanc : ∀ p q, fs.resolve q = some q → isUnder p q = true →
      fs.resolve p = some p)
    (he : fs.resolve e ≠ some e) (ex₁ ex₂ : List FsPath) (fuel : Nat)
    {s : WalkState} (h : CurResolved fs s) :
    runWalk fs (ex₁ ++ e :: ex₂) fuel s =
      runWalk fs (ex₁ ++ ex₂) fuel s := by
  induction fuel generalizing s with
  | zero => rfl
  | succ n ih =>
    show runWalk fs (ex₁ ++ e :: ex₂) n (step fs (ex₁ ++ e :: ex₂) s) =
      runWalk fs (ex₁ ++ ex₂) n (step fs (ex₁ ++ ex₂) s)
    rw [step_erase_noncanonical Hidem Hanc he ex₁ ex₂ h]
    exact ih (curResolved_step Hidem h)

theorem isUnder_nil {p : FsPath} (h : isUnder p [] = true) : p = [] := by
  cases p with
  | nil => rfl
  | cons a p' => simp [isUnder] at h

theorem isUnder_singleton {p : FsPath} {x : String}
    (h : isUnder p [x] = true) : p = [] ∨ p = [x] := by
  cases p with
  | nil => exact Or.inl rfl
  | cons a p' =>
    simp only [isUnder, Bool.and_eq_true, beq_iff_eq] at h
    obtain ⟨rfl, h⟩ := h
    cases p' with
    | nil => exact Or.inr rfl
    | cons b p'' => simp [isUnder] at h

theorem isUnder_pair {p : FsPath} {x y : String}
    (h : isUnder p [x, y] = true) : p = [] ∨ p = [x] ∨ p = [x, y] := by
  cases p with
  | nil => exact Or.inl rfl
  | cons a p' =>
    simp only [isUnder, Bool.and_eq_true, beq_iff_eq] at h
    obtain ⟨rfl, h⟩ := h
    cases p' with
    | nil => exact Or.inr (Or.inl rfl)
    | cons b p'' =>
      simp only [isUnder, Bool.and_eq_true, beq_iff_eq] at h
      obtain ⟨rfl, h⟩ := h
      cases p'' with
      | nil => exact Or.inr (Or.inr rfl)
      | cons d p3 => simp [isUnder] at h

theorem exFS_resolve_idem (p q : FsPath) (h : exFS.resolve p = some q) :
    exFS.resolve q = some q := by
  simp only [exFS] at h
  split_ifs at h <;> (obtain rfl := Option.some.inj h; decide)

theorem exFS_resolve_anc (p q : FsPath) (hq : exFS.resolve q = some q)
    (hpq : isUnder p q = true) : exFS.resolve p = some p := by
  simp only [exFS] at hq
  split_ifs at hq with h1 h2 h3 h4 h5
  · subst h1
    obtain rfl := isUnder_nil hpq
    decide
  · subst h2
    rcases isUnder_singleton hpq with rfl | rfl <;> decide
  · subst h3
    rcases isUnder_pair hpq with rfl | rfl | rfl <;> decide
  · subst h4
    rcases isUnder_pair hpq with rfl | rfl | rfl <;> decide
  · subst h5
    exact absurd (Option.some.inj hq) (by decide)

/-- C9: exclude paths are compared exactly as configured while every
candidate the walker tests is an output of `Path.resolve`; on a
filesystem where resolution is idempotent and ancestors of canonical
paths are canonical, an exclude that is not canonical (e.g. one reaching
its target through a symbolic link) never matches any candidate, so the
whole walk — and in particular the set of emitted files under the
exclude's real target — is identical to the walk without that exclude. -/
theorem c9_noncanonical_exclude_inert (fs : FS) (e : FsPath)
    (ex₁ ex₂ includes : List FsPath) (fuel : Nat)
    (Hidem : ∀ p q, fs.resolve p = some q → fs.resolve q = some q)
    (Hanc : ∀ p q, fs.resolve q = some q → isUnder p q = true →
      fs.resolve p = some p)
    (he : fs.resolve e ≠ some e) :
    finishWalk (runWalk fs (ex₁ ++ e :: ex₂) fuel (initState includes)) =
      finishWalk (runWalk fs (ex₁ ++ ex₂) fuel (initState includes)) := by
  have h0 : CurResolved fs (initState includes) := by
    intro c hc
    simp [initState] at hc
  rw [runWalk_erase_noncanonical Hidem Hanc he ex₁ ex₂ fuel h0]

/-- C9 witness: on the concrete filesystem, the exclude `/lnk` (a
symlink to `/a`, hence not canonical) leaves the walk of `/a` unchanged,
so `/a`'s files are emitted despite the exclude pointing at them. -/
theorem c9_witness :
    finishWalk (runWalk exFS [["lnk"]] 20 (initState [["a"]])) =
      finishWalk (runWalk exFS [] 20 (initState [["a"]])) :=
  c9_noncanonical_exclude_inert exFS ["lnk"] [] [] [["a"]] 20
    exFS_resolve_idem exFS_resolve_anc (by decide)

end IdriveBackup
